import Mathlib

/-!
# Simple to-do list (`src/script.js`): task store and view projection

A shallow embedding of the task-list logic of `script.js`.

* A JavaScript string is a Lean `String`; `String.prototype.trim` is `jsTrim`, which strips the
  ECMAScript `WhiteSpace` and `LineTerminator` code points from both ends.
* `state.tasks` is a `List Task`; the mutating functions (`addTask`, `toggleTask`, `editTask`,
  `deleteTask`) are given by their effect on `state.tasks`.  The calls `saveTasks()` and `render()`
  that end each of them only read `state.tasks`; they are embedded on their own
  (`saveTasks`, `getVisibleTasks`, `updateCounter`, `updateEmptyState`).
* What the environment supplies is an explicit argument: the reading of `Date.now()` (an integer
  number of milliseconds), the answer of `prompt` (`none` for a cancelled dialog), the DOM nodes
  (`none` for a node that `querySelector` did not find), the item held by `localStorage`, and the
  built-ins `JSON.parse`, `JSON.stringify` and the number conversions (`JSEnv`).
-/

namespace SimpleTodo

/-! ## Strings -/

/-- ECMAScript `WhiteSpace` (TAB, VT, FF, ZWNBSP and the code points of category Zs) and
`LineTerminator` (LF, CR, LS, PS): the code points that `String.prototype.trim` removes. -/
def isWhiteSpace (c : Char) : Bool :=
  let n := c.toNat
  n == 0x09 || n == 0x0A || n == 0x0B || n == 0x0C || n == 0x0D || n == 0x20 || n == 0xA0 ||
  n == 0x1680 || (0x2000 ≤ n && n ≤ 0x200A) || n == 0x2028 || n == 0x2029 || n == 0x202F ||
  n == 0x205F || n == 0x3000 || n == 0xFEFF

/-- `String.prototype.trim`: the string without its leading and trailing white space. -/
def jsTrim (s : String) : String :=
  ⟨((s.data.dropWhile isWhiteSpace).reverse.dropWhile isWhiteSpace).reverse⟩

/-! ## Data model -/

/-- One entry of `state.tasks`: the object literal `{ id, text, completed }`. -/
structure Task where
  id : String
  text : String
  completed : Bool
  deriving DecidableEq, Repr

/-- The in-place assignment to the object that `Array.prototype.find` returned: the first element
satisfying `p` is replaced by its updated version, every other element stays where it is. -/
def assignFirst (p : Task → Bool) (f : Task → Task) : List Task → List Task
  | [] => []
  | t :: ts => if p t then f t :: ts else t :: assignFirst p f ts

/-! ## Mutations of `state.tasks` -/

/-- `addTask(text)` (lines 89–97), `now` being the value of `Date.now()`: pushes
`{ id: Date.now().toString(), text, completed: false }`.  There is no check on `text`.
A time value is an integer of at most 16 digits, for which `Number.prototype.toString` gives the
plain decimal digits, with a leading minus sign below zero, as `toString` on `Int` does. -/
def addTask (tasks : List Task) (text : String) (now : Int) : List Task :=
  tasks ++ [{ id := toString now, text := text, completed := false }]

/-- `handleSubmit(event)` (lines 36–49), `input` being `elements.input.value` (`none` when the
input element is missing): trims the value, returns when nothing is left, else calls `addTask`. -/
def handleSubmit (tasks : List Task) (input : Option String) (now : Int) : List Task :=
  match input with
  | none => tasks
  | some value =>
    let text := jsTrim value
    if text = "" then tasks else addTask tasks text now

/-- `toggleTask(id, completed)` (lines 99–106). -/
def toggleTask (tasks : List Task) (id : String) (completed : Bool) : List Task :=
  match tasks.find? (fun item => item.id == id) with
  | none => tasks
  | some _ =>
    assignFirst (fun item => item.id == id) (fun task => { task with completed := completed }) tasks

/-- `editTask(id)` (lines 108–125), `updated` being what `prompt('Edit task', task.text)`
returned (`none` for `null`, the cancelled dialog). -/
def editTask (tasks : List Task) (id : String) (updated : Option String) : List Task :=
  match tasks.find? (fun item => item.id == id) with
  | none => tasks
  | some _ =>
    match updated with
    | none => tasks
    | some updated =>
      let trimmed := jsTrim updated
      if trimmed = "" then tasks
      else assignFirst (fun item => item.id == id) (fun task => { task with text := trimmed }) tasks

/-- `deleteTask(id)` (lines 127–131): keeps the tasks whose id differs from `id`. -/
def deleteTask (tasks : List Task) (id : String) : List Task :=
  tasks.filter (fun task => task.id != id)

/-- One call of a mutating function together with what the environment hands to it. -/
inductive Op where
  | add (text : String) (now : Int)
  | toggle (id : String) (completed : Bool)
  | edit (id : String) (updated : Option String)
  | delete (id : String)
  deriving DecidableEq, Repr

/-- The effect of one operation on `state.tasks`. -/
def applyOp (tasks : List Task) : Op → List Task
  | .add text now => addTask tasks text now
  | .toggle id completed => toggleTask tasks id completed
  | .edit id updated => editTask tasks id updated
  | .delete id => deleteTask tasks id

/-- The collection after a sequence of operations, starting from `tasks: []` (line 4). -/
def run (ops : List Op) : List Task :=
  ops.foldl applyOp []

/-- The texts handed to `addTask` in a sequence of operations. -/
def addedTexts : List Op → List String
  | [] => []
  | .add text _ :: ops => text :: addedTexts ops
  | _ :: ops => addedTexts ops

/-- The readings of `Date.now()` taken by the `addTask` calls of a sequence of operations. -/
def clockReadings : List Op → List Int
  | [] => []
  | .add _ now :: ops => now :: clockReadings ops
  | _ :: ops => clockReadings ops

/-! ## View projection -/

/-- `getVisibleTasks()` (lines 133–143) for `state.filter = filter`. -/
def getVisibleTasks (tasks : List Task) (filter : String) : List Task :=
  if filter = "active" then tasks.filter (fun task => !task.completed)
  else if filter = "completed" then tasks.filter (fun task => task.completed)
  else tasks

/-- `updateCounter()` (lines 193–208): the new `textContent` of `elements.counter`
(`none` when the node is missing, in which case nothing is done). -/
def updateCounter (counter : Option String) (tasks : List Task) : Option String :=
  match counter with
  | none => none
  | some _ =>
    let total := tasks.length
    let remaining := (tasks.filter (fun task => !task.completed)).length
    if total = 0 then some "No tasks yet."
    else if remaining = 0 then some "All tasks are complete!"
    else some (toString remaining ++ " of " ++ toString total ++ " task" ++
      (if total = 1 then "" else "s") ++ " remaining.")

/-- The two properties of `elements.empty` that `updateEmptyState` writes. -/
structure EmptyState where
  hidden : Bool
  textContent : String
  deriving DecidableEq, Repr

/-- `updateEmptyState(visibleTasks)` (lines 210–227) for `state.tasks = tasks` and
`state.filter = filter`; `empty` is the node before the call (`none` when it is missing). -/
def updateEmptyState (empty : Option EmptyState) (tasks : List Task) (filter : String)
    (visibleTasks : List Task) : Option EmptyState :=
  match empty with
  | none => none
  | some el =>
    let hasTasks := decide (tasks.length > 0)
    let el := { el with hidden := hasTasks && decide (visibleTasks.length > 0) }
    if !hasTasks then some { el with textContent := "Start by adding your first task." }
    else if visibleTasks.length = 0 then
      if filter = "active" then some { el with textContent := "All tasks are done. Great job!" }
      else if filter = "completed" then
        some { el with textContent := "No tasks have been completed yet." }
      else some { el with textContent := "No tasks to show right now." }
    else some el

/-! ## Persistence -/

/-- A value that `JSON.parse` can return; `Num` is the type of the Number values. An object is the
list of its members in source order (`lookup` lets a later duplicate key win, as `JSON.parse`
does). -/
inductive JSValue (Num : Type) where
  | null
  | bool (b : Bool)
  | num (n : Num)
  | str (s : String)
  | arr (items : List (JSValue Num))
  | obj (members : List (String × JSValue Num))

/-- The built-ins of the host that `loadTasks` and `saveTasks` call. -/
structure JSEnv (Num : Type) where
  /-- `JSON.parse`; `none` when it raises (`SyntaxError`, or the engine giving up on the text). -/
  parse : String → Option (JSValue Num)
  /-- `JSON.stringify`. -/
  stringify : JSValue Num → String
  /-- `Number.prototype.toString`, the string conversion of a Number. -/
  numToString : Num → String
  /-- `ToBoolean` on a Number (`false` for zero). -/
  numToBoolean : Num → Bool
  /-- Whether the engine runs out of resources while it converts the given array or object to a
  string and raises `RangeError`: the conversion of an array calls `join`, which converts the
  elements recursively, and an array nested too deeply for the call stack exhausts it. How deep
  that is depends on the engine. -/
  raisesRangeError : JSValue Num → Bool

/-- What `localStorage` holds and answers for the key `'simple-todo.tasks'`. -/
structure Storage where
  /-- The stored item, `none` when there is none (`getItem` returns `null`). -/
  item : Option String
  /-- Whether `getItem` returns; `false` when it raises (storage disabled). -/
  readable : Bool
  /-- Whether `setItem` stores the given value; `false` when it raises (quota, storage disabled). -/
  accepts : String → Bool

variable {Num : Type}

/-- The own property `key` of an object with the given members, `none` for `undefined`
(no prototype of a parsed value has a property `id`, `text`, `completed` or, apart from
`Object.prototype` and `Array.prototype`, one that matters to `String`). -/
def lookup (key : String) : List (String × JSValue Num) → Option (JSValue Num)
  | [] => none
  | (k, v) :: rest =>
    match lookup key rest with
    | some w => some w
    | none => if k = key then some v else none

/-- The value of `item.key` for an `item` other than `null` and a `key` among `id`, `text`,
`completed`; `none` is `undefined`. -/
def member (item : JSValue Num) (key : String) : Option (JSValue Num) :=
  match item with
  | .obj members => lookup key members
  | _ => none

mutual
/-- `String(value)`; `none` when the conversion raises. A primitive value never does. An array
is joined with commas (`Array.prototype.toString`), each element converted in turn; a plain object
gives `[object Object]`, unless it has an own member `toString`: that member, never callable,
hides `Object.prototype.toString`, and since `valueOf` returns the object itself the conversion to
a primitive fails with `TypeError`. The conversion of an array or object raises `RangeError` when
the engine runs out of stack on it (`raisesRangeError`), at whatever level of nesting. -/
def toStr (env : JSEnv Num) : JSValue Num → Option String
  | .null => some "null"
  | .bool b => some (if b then "true" else "false")
  | .num n => some (env.numToString n)
  | .str s => some s
  | .arr items =>
    if env.raisesRangeError (.arr items) then none
    else (joinParts env items).map (String.intercalate ",")
  | .obj members =>
    if env.raisesRangeError (.obj members) then none
    else if (lookup "toString" members).isSome then none
    else some "[object Object]"
/-- The strings that `Array.prototype.join` concatenates: the empty string for `null`, else the
string conversion of the element. -/
def joinParts (env : JSEnv Num) : List (JSValue Num) → Option (List String)
  | [] => some []
  | .null :: rest => (joinParts env rest).map (fun parts => "" :: parts)
  | v :: rest =>
    match toStr env v with
    | none => none
    | some s => (joinParts env rest).map (fun parts => s :: parts)
end

/-- `Boolean(value)` for a value that may be `undefined` (`none`). -/
def toBoolean (env : JSEnv Num) : Option (JSValue Num) → Bool
  | none => false
  | some .null => false
  | some (.bool b) => b
  | some (.num n) => env.numToBoolean n
  | some (.str s) => s != ""
  | some (.arr _) => true
  | some (.obj _) => true

/-- The operand of `String` in line 249, `item.id ?? ''`. -/
def idOrEmpty (item : JSValue Num) : JSValue Num :=
  match member item "id" with
  | none => .str ""
  | some .null => .str ""
  | some v => v

/-- The callback of `parsed.map` (lines 248–252) on one element; `none` when it raises
an exception: reading `item.id` of `null` (`TypeError`), or a failing `String(...)`. -/
def sanitize (env : JSEnv Num) (item : JSValue Num) : Option Task :=
  match item with
  | .null => none
  | _ =>
    match toStr env (idOrEmpty item) with
    | none => none
    | some id =>
      some { id := id
             text := match member item "text" with
               | some (.str s) => s
               | _ => ""
             completed := toBoolean env (member item "completed") }

/-- `parsed.map(...)` (line 247): the callback on every element in order, `none` as soon as one
call raises. -/
def mapSanitize (env : JSEnv Num) : List (JSValue Num) → Option (List Task)
  | [] => some []
  | item :: rest =>
    match sanitize env item with
    | none => none
    | some task => (mapSanitize env rest).map (fun tasks => task :: tasks)

/-- `localStorage.getItem(STORAGE_KEY)`: `none` when it raises, `some none` for `null`. -/
def Storage.getItem (storage : Storage) : Option (Option String) :=
  if storage.readable then some storage.item else none

/-- `loadTasks()` (lines 237–258). Every `none` below is an exception that the `catch` of
line 254 turns into `[]`. -/
def loadTasks (env : JSEnv Num) (storage : Storage) : List Task :=
  match storage.getItem with
  | none => []
  | some none => []
  | some (some stored) =>
    if stored = "" then []
    else
      match env.parse stored with
      | none => []
      | some (.arr parsed) =>
        match mapSanitize env parsed with
        | none => []
        | some items => items.filter (fun item => item.id != "" && item.text != "")
      | some _ => []

/-- The value that `JSON.stringify` is given for one task. -/
def taskValue (task : Task) : JSValue Num :=
  .obj [("id", .str task.id), ("text", .str task.text), ("completed", .bool task.completed)]

/-- The value that `JSON.stringify` is given in line 262, `state.tasks`. -/
def tasksValue (tasks : List Task) : JSValue Num :=
  .arr (tasks.map taskValue)

/-- `saveTasks()` (lines 260–266): the storage afterwards. A raising `setItem` is caught and
leaves the storage as it was. -/
def saveTasks (env : JSEnv Num) (storage : Storage) (tasks : List Task) : Storage :=
  let value := env.stringify (tasksValue tasks)
  if storage.accepts value then { storage with item := some value } else storage

/-- The record-by-record sanitization in the words of the specification: `id` coerced to a string
(empty when missing or `null`, and here also when the coercion raises and so has no result),
`text` kept when it is a string and empty otherwise, `completed` coerced to a boolean. -/
def sanitizedRecord (env : JSEnv Num) (record : JSValue Num) : Task :=
  { id := match member record "id" with
      | none => ""
      | some .null => ""
      | some v => (toStr env v).getD ""
    text := match member record "text" with
      | some (.str s) => s
      | _ => ""
    completed := toBoolean env (member record "completed") }

/-- A task that `loadTasks` keeps: `id` and `text` are both non-empty. -/
def keeps (task : Task) : Bool :=
  task.id != "" && task.text != ""

/-- Whether a value is `null`, a boolean, a number or a string. -/
def isScalar : JSValue Num → Bool
  | .arr _ => false
  | .obj _ => false
  | _ => true

/-! ## Example data -/

/-- A collection used in the examples. -/
def demoTasks : List Task :=
  [{ id := "1", text := "a", completed := true }, { id := "", text := "b", completed := false },
   { id := "3", text := "", completed := false }, { id := "4", text := "d", completed := false }]

/-- The JSON text of `demoTasks`. -/
def demoText : String :=
  "[\x7b\"id\":\"1\",\"text\":\"a\",\"completed\":true\x7d," ++
  "\x7b\"id\":\"\",\"text\":\"b\",\"completed\":false\x7d," ++
  "\x7b\"id\":\"3\",\"text\":\"\",\"completed\":false\x7d," ++
  "\x7b\"id\":\"4\",\"text\":\"d\",\"completed\":false\x7d]"

/-- A stored text whose second record has an object with a member `toString` as its id. -/
def corruptText : String :=
  "[\x7b\"id\":\"1\",\"text\":\"a\"\x7d,\x7b\"id\":\x7b\"toString\":1\x7d,\"text\":\"b\"\x7d]"

/-- The value that `JSON.parse` returns for `corruptText`. -/
def corruptValue : JSValue Nat :=
  .arr [.obj [("id", .str "1"), ("text", .str "a")],
        .obj [("id", .obj [("toString", .num 1)]), ("text", .str "b")]]

/-- A host for the examples: `JSON.parse` is given on the two texts above, `JSON.stringify`
on `demoTasks`; its stack is never exhausted. -/
def demoEnv : JSEnv Nat where
  parse := fun s =>
    if s = demoText then some (tasksValue demoTasks)
    else if s = corruptText then some corruptValue
    else none
  stringify := fun _ => demoText
  numToString := fun n => toString n
  numToBoolean := fun n => n != 0
  raisesRangeError := fun _ => false

mutual
/-- How deeply arrays and objects are nested in a value: 0 for a primitive value. -/
def depth : JSValue Num → Nat
  | .arr items => depthItems items + 1
  | .obj members => depthMembers members + 1
  | _ => 0
/-- The greatest depth among the elements of an array. -/
def depthItems : List (JSValue Num) → Nat
  | [] => 0
  | v :: rest => max (depth v) (depthItems rest)
/-- The greatest depth among the members of an object. -/
def depthMembers : List (String × JSValue Num) → Nat
  | [] => 0
  | (_, v) :: rest => max (depth v) (depthMembers rest)
end

/-- A stored text whose second record has an array nested three deep as its id. -/
def deepText : String :=
  "[\x7b\"id\":\"1\",\"text\":\"a\"\x7d,\x7b\"id\":[[[7]]],\"text\":\"b\"\x7d]"

/-- The value that `JSON.parse` returns for `deepText`. -/
def deepValue : JSValue Nat :=
  .arr [.obj [("id", .str "1"), ("text", .str "a")],
        .obj [("id", .arr [.arr [.arr [.num 7]]]), ("text", .str "b")]]

/-- A host whose stack is exhausted by the string conversion of a value nested more than two
deep (a real engine holds some thousands of levels). -/
def shallowEnv : JSEnv Nat where
  parse := fun s => if s = deepText then some deepValue else none
  stringify := fun _ => demoText
  numToString := fun n => toString n
  numToBoolean := fun n => n != 0
  raisesRangeError := fun v => decide (2 < depth v)

/-! ## Auxiliary facts -/

theorem jsTrim_of_blank (s : String) (h : ∀ c ∈ s.data, isWhiteSpace c = true) :
    jsTrim s = "" := by
  have h1 : s.data.dropWhile isWhiteSpace = [] := by
    rw [List.dropWhile_eq_nil_iff]; exact h
  simp [jsTrim, h1]

theorem length_assignFirst (p : Task → Bool) (f : Task → Task) (l : List Task) :
    (assignFirst p f l).length = l.length := by
  induction l with
  | nil => rfl
  | cons t ts ih =>
    unfold assignFirst
    split <;> simp [ih]

theorem assignFirst_of_forall_not (p : Task → Bool) (f : Task → Task) (l : List Task)
    (h : ∀ t ∈ l, p t = false) : assignFirst p f l = l := by
  induction l with
  | nil => rfl
  | cons t ts ih =>
    unfold assignFirst
    have ht : p t = false := h t (List.mem_cons_self _ _)
    simp only [ht, Bool.false_eq_true, if_false]
    rw [ih (fun u hu => h u (List.mem_cons_of_mem _ hu))]

theorem assignFirst_append (p : Task → Bool) (f : Task → Task) (pre : List Task) (t : Task)
    (post : List Task) (hpre : ∀ u ∈ pre, p u = false) (ht : p t = true) :
    assignFirst p f (pre ++ t :: post) = pre ++ f t :: post := by
  induction pre with
  | nil => simp [assignFirst, ht]
  | cons u us ih =>
    have hu : p u = false := hpre u (List.mem_cons_self _ _)
    have ih2 := ih (fun v hv => hpre v (List.mem_cons_of_mem _ hv))
    rw [List.cons_append, assignFirst]
    simp only [hu, Bool.false_eq_true, if_false]
    rw [ih2, List.cons_append]

theorem map_assignFirst {β : Type} (g : Task → β) (p : Task → Bool) (f : Task → Task)
    (hf : ∀ t, g (f t) = g t) (l : List Task) :
    (assignFirst p f l).map g = l.map g := by
  induction l with
  | nil => rfl
  | cons t ts ih =>
    unfold assignFirst
    split
    · simp [hf]
    · simp [ih]

theorem mem_assignFirst (p : Task → Bool) (f : Task → Task) (l : List Task) (x : Task)
    (h : x ∈ assignFirst p f l) : x ∈ l ∨ ∃ t ∈ l, x = f t := by
  induction l with
  | nil => simp [assignFirst] at h
  | cons t ts ih =>
    unfold assignFirst at h
    split at h
    · rcases List.mem_cons.mp h with rfl | h
      · exact Or.inr ⟨t, List.mem_cons_self _ _, rfl⟩
      · exact Or.inl (List.mem_cons_of_mem _ h)
    · rcases List.mem_cons.mp h with rfl | h
      · exact Or.inl (List.mem_cons_self _ _)
      · rcases ih h with h | ⟨u, hu, rfl⟩
        · exact Or.inl (List.mem_cons_of_mem _ h)
        · exact Or.inr ⟨u, List.mem_cons_of_mem _ hu, rfl⟩

theorem find_eq_none_of_absent (tasks : List Task) (id : String) (h : ∀ t ∈ tasks, t.id ≠ id) :
    tasks.find? (fun item => item.id == id) = none := by
  rw [List.find?_eq_none]
  intro t ht
  simpa using h t ht

theorem toggleTask_eq_assignFirst (tasks : List Task) (id : String) (completed : Bool) :
    toggleTask tasks id completed
      = assignFirst (fun item => item.id == id)
          (fun task => { task with completed := completed }) tasks := by
  unfold toggleTask
  split
  · next h =>
    rw [List.find?_eq_none] at h
    rw [assignFirst_of_forall_not]
    intro t ht
    simpa using h t ht
  · rfl

theorem editTask_eq_assignFirst (tasks : List Task) (id newText : String)
    (h : jsTrim newText ≠ "") :
    editTask tasks id (some newText)
      = assignFirst (fun item => item.id == id)
          (fun task => { task with text := jsTrim newText }) tasks := by
  unfold editTask
  split
  · next hf =>
    rw [List.find?_eq_none] at hf
    rw [assignFirst_of_forall_not]
    intro t ht
    simpa using hf t ht
  · simp [h]


/-! ## Decimal rendering of the clock reading -/



theorem digitChar_value (k : Nat) (h : k < 10) : (Nat.digitChar k).toNat - 48 = k := by
  interval_cases k <;> rfl

theorem digitChar_ne_minus (k : Nat) (h : k < 10) : Nat.digitChar k ≠ '-' := by
  interval_cases k <;> decide

theorem foldl_toDigitsCore (fuel : Nat) : ∀ (n : Nat) (ds : List Char), n < fuel →
    List.foldl (fun acc c => acc * 10 + (c.toNat - 48)) 0 (Nat.toDigitsCore 10 fuel n ds)
      = List.foldl (fun acc c => acc * 10 + (c.toNat - 48)) n ds := by
  induction fuel with
  | zero => intro n ds h; omega
  | succ fuel ih =>
    intro n ds h
    unfold Nat.toDigitsCore
    by_cases h0 : n / 10 = 0
    · have hn : n < 10 := by omega
      simp only [h0, if_true, List.foldl_cons, Nat.zero_mul, Nat.zero_add]
      rw [digitChar_value _ (Nat.mod_lt _ (by norm_num)), Nat.mod_eq_of_lt hn]
    · simp only [h0, if_false]
      rw [ih (n / 10) _ (by omega), List.foldl_cons,
        digitChar_value _ (Nat.mod_lt _ (by norm_num))]
      congr 1
      omega

theorem decimalValue_repr (n : Nat) :
    List.foldl (fun acc c => acc * 10 + (c.toNat - 48)) 0 (Nat.repr n).data = n := by
  unfold Nat.repr Nat.toDigits
  simp only [List.asString]
  rw [foldl_toDigitsCore (n + 1) n [] (by omega)]
  rfl

theorem toDigitsCore_no_minus (fuel : Nat) : ∀ (n : Nat) (ds : List Char),
    (∀ c ∈ ds, c ≠ '-') → ∀ c ∈ Nat.toDigitsCore 10 fuel n ds, c ≠ '-' := by
  induction fuel with
  | zero => intro n ds h; simpa [Nat.toDigitsCore] using h
  | succ fuel ih =>
    intro n ds h
    unfold Nat.toDigitsCore
    have hds : ∀ c ∈ Nat.digitChar (n % 10) :: ds, c ≠ '-' := by
      intro c hc
      rcases List.mem_cons.mp hc with rfl | hc
      · exact digitChar_ne_minus _ (Nat.mod_lt _ (by norm_num))
      · exact h c hc
    by_cases h0 : n / 10 = 0
    · simpa only [h0, if_true] using hds
    · simpa only [h0, if_false] using ih (n / 10) _ hds

theorem toDigitsCore_ne_nil (fuel n : Nat) (ds : List Char) :
    Nat.toDigitsCore 10 (fuel + 1) n ds ≠ [] := by
  induction fuel generalizing n ds with
  | zero => 
    unfold Nat.toDigitsCore
    by_cases h0 : n / 10 = 0
    · simp [h0]
    · simp [h0, Nat.toDigitsCore]
  | succ fuel ih =>
    unfold Nat.toDigitsCore
    by_cases h0 : n / 10 = 0
    · simp [h0]
    · simp only [h0, if_false]; exact ih _ _

theorem repr_no_minus (n : Nat) : ∀ c ∈ (Nat.repr n).data, c ≠ '-' := by
  unfold Nat.repr Nat.toDigits
  exact toDigitsCore_no_minus _ _ _ (by simp)

theorem repr_injective {m n : Nat} (h : Nat.repr m = Nat.repr n) : m = n := by
  rw [← decimalValue_repr m, ← decimalValue_repr n, h]

theorem repr_ne_empty (n : Nat) : Nat.repr n ≠ "" := by
  intro h
  have : (Nat.repr n).data = [] := by rw [h]
  unfold Nat.repr Nat.toDigits at this
  exact toDigitsCore_ne_nil _ _ _ this

theorem toString_int_eq (a : Int) : toString a =
    match a with
    | Int.ofNat m => Nat.repr m
    | Int.negSucc m => "-" ++ Nat.repr (m + 1) := by
  cases a <;> rfl

/-- The decimal rendering of an integer determines it. -/
theorem toString_int_injective {a b : Int} (h : toString a = toString b) : a = b := by
  rw [toString_int_eq, toString_int_eq] at h
  cases a with
  | ofNat m =>
    cases b with
    | ofNat n => simp only at h; rw [repr_injective h]
    | negSucc n =>
      simp only at h
      exfalso
      have hd : (Nat.repr m).data = '-' :: (Nat.repr (n + 1)).data := by rw [h]; rfl
      exact repr_no_minus m '-' (by rw [hd]; simp) rfl
  | negSucc m =>
    cases b with
    | ofNat n =>
      simp only at h
      exfalso
      have hd : (Nat.repr n).data = '-' :: (Nat.repr (m + 1)).data := by rw [← h]; rfl
      exact repr_no_minus n '-' (by rw [hd]; simp) rfl
    | negSucc n =>
      simp only at h
      have hd : ('-' :: (Nat.repr (m + 1)).data) = '-' :: (Nat.repr (n + 1)).data := by
        have := congrArg String.data h
        simpa using this
      have h2 : Nat.repr (m + 1) = Nat.repr (n + 1) := by
        apply String.ext
        exact (List.cons.inj hd).2
      have := repr_injective h2
      have : m = n := by omega
      rw [this]

/-- The decimal rendering of an integer is never the empty string. -/
theorem toString_int_ne_empty (a : Int) : toString a ≠ "" := by
  rw [toString_int_eq]
  cases a with
  | ofNat m => exact repr_ne_empty m
  | negSucc m =>
    simp only
    intro h
    have := congrArg String.data h
    simp at this


/-! ## The claims -/

/-- C2 (counterexample): `addTask` has no guard of its own; called with a text of three blanks
on the empty collection it appends a task, so the collection and its length change. -/
theorem addTask_blank_appends :
    addTask [] "   " 0 = [{ id := "0", text := "   ", completed := false }] ∧
    addTask [] "   " 0 ≠ [] ∧
    (addTask [] "   " 0).length ≠ ([] : List Task).length := by
  decide

/-- C2 (amended): the guard against blank input is in the submit handler. For every collection and
every input value that is empty or consists only of white space, `handleSubmit` leaves the
collection, and so its length, unchanged (`addTask` is not called). -/
theorem handleSubmit_blank (tasks : List Task) (value : String) (now : Int)
    (h : ∀ c ∈ value.data, isWhiteSpace c = true) :
    handleSubmit tasks (some value) now = tasks ∧
    (handleSubmit tasks (some value) now).length = tasks.length := by
  have ht : jsTrim value = "" := jsTrim_of_blank value h
  simp [handleSubmit, ht]

/-- Witness for C2: submitting a value of blanks, a tab and a line feed changes nothing. -/
theorem handleSubmit_blank_witness :
    (∀ c ∈ (" \t\n ".data), isWhiteSpace c = true) ∧
    handleSubmit [{ id := "7", text := "a", completed := true }] (some " \t\n ") 8
      = [{ id := "7", text := "a", completed := true }] :=
  ⟨by decide, (handleSubmit_blank _ " \t\n " 8 (by decide)).1⟩

/-- C3 (counterexample): a second add that reads the same clock value as the add that made the
existing task gets the same id, and deleting that id removes both tasks. -/
theorem add_delete_same_clock :
    run [Op.add "a" 5] = [{ id := "5", text := "a", completed := false }] ∧
    deleteTask (addTask (run [Op.add "a" 5]) "b" 5) (toString (5 : Int)) = [] ∧
    deleteTask (addTask (run [Op.add "a" 5]) "b" 5) (toString (5 : Int)) ≠ run [Op.add "a" 5] := by
  decide

/-- C3 (amended): for every collection in which no task already has the id that the add assigns
(the decimal rendering of the clock reading), and every text, `addTask` followed by `deleteTask`
of that id gives back exactly the collection before the add. -/
theorem deleteTask_addTask (tasks : List Task) (text : String) (now : Int)
    (h : ∀ t ∈ tasks, t.id ≠ toString now) :
    deleteTask (addTask tasks text now) (toString now) = tasks := by
  unfold deleteTask addTask
  rw [List.filter_append]
  have h1 : tasks.filter (fun task => task.id != toString now) = tasks := by
    rw [List.filter_eq_self]
    intro t ht
    simpa using h t ht
  rw [h1]
  simp

/-- Witness for C3: an add at clock 6 next to a task with id 5, then the delete of id 6. -/
theorem deleteTask_addTask_witness :
    (∀ t ∈ [({ id := "5", text := "a", completed := true } : Task)], t.id ≠ toString (6 : Int)) ∧
    deleteTask (addTask [{ id := "5", text := "a", completed := true }] "b" 6) (toString (6 : Int))
      = [{ id := "5", text := "a", completed := true }] :=
  ⟨by decide, deleteTask_addTask _ "b" 6 (by decide)⟩

/-- C6: `editTask` with the editor's answer `newText`. When no task has the id, or `newText`
trims to the empty string, the collection is unchanged. Otherwise the first task with that id
gets the trimmed text, everything before and after it is untouched; in every case the length,
the ids and the completed flags are as before. The answer `"  new "` is stored as `"new"`. -/
theorem editTask_spec (tasks : List Task) (id newText : String) :
    (((∀ t ∈ tasks, t.id ≠ id) ∨ jsTrim newText = "") →
      editTask tasks id (some newText) = tasks) ∧
    (jsTrim newText ≠ "" → ∀ (pre : List Task) (t : Task) (post : List Task),
      tasks = pre ++ t :: post → (∀ u ∈ pre, u.id ≠ id) → t.id = id →
      editTask tasks id (some newText) = pre ++ { t with text := jsTrim newText } :: post) ∧
    (editTask tasks id (some newText)).length = tasks.length ∧
    (editTask tasks id (some newText)).map Task.id = tasks.map Task.id ∧
    (editTask tasks id (some newText)).map Task.completed = tasks.map Task.completed ∧
    jsTrim "  new " = "new" := by
  refine ⟨?_, ?_, ?_, ?_, ?_, by decide⟩
  · rintro (h | h)
    · simp [editTask, find_eq_none_of_absent tasks id h]
    · unfold editTask
      split
      · rfl
      · simp [h]
  · intro h pre t post hl hpre ht
    rw [editTask_eq_assignFirst tasks id newText h, hl]
    exact assignFirst_append _ _ pre t post (fun u hu => by simpa using hpre u hu)
      (by simpa using ht)
  · by_cases h : jsTrim newText = ""
    · unfold editTask; split
      · rfl
      · simp [h]
    · rw [editTask_eq_assignFirst tasks id newText h, length_assignFirst]
  · by_cases h : jsTrim newText = ""
    · unfold editTask; split
      · rfl
      · simp [h]
    · rw [editTask_eq_assignFirst tasks id newText h]
      exact map_assignFirst _ _ _ (fun _ => by rfl) _
  · by_cases h : jsTrim newText = ""
    · unfold editTask; split
      · rfl
      · simp [h]
    · rw [editTask_eq_assignFirst tasks id newText h]
      exact map_assignFirst _ _ _ (fun _ => by rfl) _

/-- Witness for C6: an edit that replaces the text of the second task, and a blank edit. -/
theorem editTask_spec_witness :
    editTask [{ id := "1", text := "a", completed := true },
              { id := "2", text := "b", completed := false }] "2" (some "  new ")
      = [{ id := "1", text := "a", completed := true },
         { id := "2", text := "new", completed := false }] ∧
    editTask [{ id := "1", text := "a", completed := true }] "1" (some "  ")
      = [{ id := "1", text := "a", completed := true }] :=
  ⟨(editTask_spec _ "2" "  new ").2.1 (by decide)
      [{ id := "1", text := "a", completed := true }]
      { id := "2", text := "b", completed := false } [] rfl (by decide) rfl,
   (editTask_spec _ "1" "  ").1 (Or.inr (by decide))⟩

/-- C7: `toggleTask(id, c)`. When no task has the id the collection is unchanged. Otherwise the
first task with that id gets `completed = c`, with its id and text and everything before and
after it untouched; in every case the length, the ids and the texts, in order, are as before. -/
theorem toggleTask_spec (tasks : List Task) (id : String) (c : Bool) :
    ((∀ t ∈ tasks, t.id ≠ id) → toggleTask tasks id c = tasks) ∧
    (∀ (pre : List Task) (t : Task) (post : List Task),
      tasks = pre ++ t :: post → (∀ u ∈ pre, u.id ≠ id) → t.id = id →
      toggleTask tasks id c = pre ++ { t with completed := c } :: post) ∧
    (toggleTask tasks id c).length = tasks.length ∧
    (toggleTask tasks id c).map Task.id = tasks.map Task.id ∧
    (toggleTask tasks id c).map Task.text = tasks.map Task.text := by
  refine ⟨?_, ?_, ?_, ?_, ?_⟩
  · intro h
    simp [toggleTask, find_eq_none_of_absent tasks id h]
  · intro pre t post hl hpre ht
    rw [toggleTask_eq_assignFirst, hl]
    exact assignFirst_append _ _ pre t post (fun u hu => by simpa using hpre u hu)
      (by simpa using ht)
  · rw [toggleTask_eq_assignFirst, length_assignFirst]
  · rw [toggleTask_eq_assignFirst]
    exact map_assignFirst _ _ _ (fun _ => by rfl) _
  · rw [toggleTask_eq_assignFirst]
    exact map_assignFirst _ _ _ (fun _ => by rfl) _

/-- Witness for C7: a toggle of the second task, and a toggle of an id that no task has. -/
theorem toggleTask_spec_witness :
    toggleTask [{ id := "1", text := "a", completed := false },
                { id := "2", text := "b", completed := false }] "2" true
      = [{ id := "1", text := "a", completed := false },
         { id := "2", text := "b", completed := true }] ∧
    toggleTask [{ id := "1", text := "a", completed := false }] "3" true
      = [{ id := "1", text := "a", completed := false }] :=
  ⟨(toggleTask_spec _ "2" true).2.1
      [{ id := "1", text := "a", completed := false }]
      { id := "2", text := "b", completed := false } [] rfl (by decide) rfl,
   (toggleTask_spec _ "3" true).1 (by decide)⟩


/-- C8: the visible-task query for the three filters. Under `all` it is the whole collection;
under `active` or `completed` it is exactly the tasks whose `completed` flag equals
`filter == "completed"`; in each case it is a sublist of the collection (stored order kept). -/
theorem getVisibleTasks_spec (tasks : List Task) (filter : String)
    (h : filter ∈ ["all", "active", "completed"]) :
    getVisibleTasks tasks filter
      = (if filter = "all" then tasks
         else tasks.filter (fun task => task.completed == (filter == "completed"))) ∧
    List.Sublist (getVisibleTasks tasks filter) tasks := by
  simp only [List.mem_cons, List.mem_singleton, List.not_mem_nil, or_false] at h
  rcases h with rfl | rfl | rfl
  · exact ⟨by simp [getVisibleTasks], by simp [getVisibleTasks]⟩
  · refine ⟨?_, by simp [getVisibleTasks]⟩
    have e : (fun task : Task => task.completed == ("active" == "completed"))
        = (fun task => !task.completed) := by
      funext task
      cases task.completed <;> decide
    rw [e]
    simp [getVisibleTasks]
  · refine ⟨?_, by simp [getVisibleTasks]⟩
    have e : (fun task : Task => task.completed == ("completed" == "completed"))
        = (fun task => task.completed) := by
      funext task
      cases task.completed <;> decide
    rw [e]
    simp [getVisibleTasks]

/-- Witness for C8: the active tasks of a collection of three. -/
theorem getVisibleTasks_spec_witness :
    "active" ∈ ["all", "active", "completed"] ∧
    getVisibleTasks [{ id := "1", text := "a", completed := true },
                     { id := "2", text := "b", completed := false },
                     { id := "3", text := "c", completed := false }] "active"
      = [{ id := "2", text := "b", completed := false },
         { id := "3", text := "c", completed := false }] :=
  ⟨by decide, (getVisibleTasks_spec _ "active" (by decide)).1.trans (by decide)⟩

/-- C9: the counter text, with `total` the number of tasks and `remaining` the number of tasks
that are not completed: `No tasks yet.` for no task, `All tasks are complete!` when some task
exists and none remains, else `<remaining> of <total> task remaining.` for a single task and
`<remaining> of <total> tasks remaining.` for more; one incomplete task alone gives
`1 of 1 task remaining.`. -/
theorem updateCounter_spec (previous : String) (tasks : List Task) :
    (tasks.length = 0 → updateCounter (some previous) tasks = some "No tasks yet.") ∧
    (0 < tasks.length → tasks.countP (fun t => !t.completed) = 0 →
      updateCounter (some previous) tasks = some "All tasks are complete!") ∧
    (tasks.length = 1 → tasks.countP (fun t => !t.completed) ≠ 0 →
      updateCounter (some previous) tasks
        = some (toString (tasks.countP (fun t => !t.completed)) ++ " of " ++
            toString tasks.length ++ " task remaining.")) ∧
    (1 < tasks.length → tasks.countP (fun t => !t.completed) ≠ 0 →
      updateCounter (some previous) tasks
        = some (toString (tasks.countP (fun t => !t.completed)) ++ " of " ++
            toString tasks.length ++ " tasks remaining.")) ∧
    updateCounter (some previous) [{ id := "1", text := "buy milk", completed := false }]
      = some "1 of 1 task remaining." := by
  have hc : (tasks.filter (fun task => !task.completed)).length
      = tasks.countP (fun t => !t.completed) := (List.countP_eq_length_filter _ _).symm
  refine ⟨?_, ?_, ?_, ?_, rfl⟩
  · intro h
    simp [updateCounter, h]
  · intro h0 h
    have h0' : tasks.length ≠ 0 := by omega
    simp only [updateCounter, hc, h, h0', if_true, if_false]
  · intro h1 h
    have h0' : tasks.length ≠ 0 := by omega
    simp only [updateCounter, hc, h, h0', h1, if_true, if_false]
    rw [String.append_empty, String.append_assoc _ " task" " remaining."]
    rfl
  · intro h1 h
    have h0' : tasks.length ≠ 0 := by omega
    have h1' : tasks.length ≠ 1 := by omega
    simp only [updateCounter, hc, h, h0', h1', if_false]
    rw [String.append_assoc _ " task" "s", String.append_assoc _ (" task" ++ "s") " remaining."]
    rfl

/-- Witness for C9: one of two tasks remaining, and a single completed task. -/
theorem updateCounter_spec_witness :
    updateCounter (some "") [{ id := "1", text := "a", completed := false },
                             { id := "2", text := "b", completed := true }]
      = some "1 of 2 tasks remaining." ∧
    updateCounter (some "") [{ id := "2", text := "b", completed := true }]
      = some "All tasks are complete!" :=
  ⟨((updateCounter_spec "" _).2.2.2.1 (by decide) (by decide)).trans (by decide),
   (updateCounter_spec "" _).2.1 (by decide) (by decide)⟩

/-- C10: the empty-state node after `updateEmptyState` on the visible tasks of the current filter
(any filter string). It is shown (`hidden = false`) exactly when the collection is empty or no
task is visible. When shown, its message is `Start by adding your first task.` for an empty
collection, `All tasks are done. Great job!` for a non-empty collection under `active`, and
`No tasks have been completed yet.` for a non-empty collection under `completed`; it is never the
fallback `No tasks to show right now.`. When hidden, the message is left as it was. -/
theorem updateEmptyState_spec (el : EmptyState) (tasks : List Task) (filter : String) :
    ∃ el', updateEmptyState (some el) tasks filter (getVisibleTasks tasks filter) = some el' ∧
      (el'.hidden = false ↔ (tasks = [] ∨ getVisibleTasks tasks filter = [])) ∧
      (el'.hidden = false → tasks = [] →
        el'.textContent = "Start by adding your first task.") ∧
      (el'.hidden = false → tasks ≠ [] → filter = "active" →
        el'.textContent = "All tasks are done. Great job!") ∧
      (el'.hidden = false → tasks ≠ [] → filter = "completed" →
        el'.textContent = "No tasks have been completed yet.") ∧
      (el'.hidden = false → el'.textContent ≠ "No tasks to show right now.") ∧
      (el'.hidden = true → el'.textContent = el.textContent) := by
  by_cases ht : tasks = []
  · subst ht
    refine ⟨_, rfl, ?_⟩
    simp
  · have hlen : 0 < tasks.length := List.length_pos.mpr ht
    by_cases hv : getVisibleTasks tasks filter = []
    · by_cases ha : filter = "active"
      · subst ha
        refine ⟨{ hidden := false, textContent := "All tasks are done. Great job!" }, ?_, ?_⟩
        · simp [updateEmptyState, hlen, hv]
        · simp [ht, hv]
      · by_cases hc : filter = "completed"
        · subst hc
          refine ⟨{ hidden := false, textContent := "No tasks have been completed yet." }, ?_, ?_⟩
          · simp [updateEmptyState, hlen, hv]
          · simp [ht, hv]
        · exfalso
          simp [getVisibleTasks, ha, hc] at hv
          exact ht hv
    · have hvlen : 0 < (getVisibleTasks tasks filter).length := List.length_pos.mpr hv
      have hvlen' : (getVisibleTasks tasks filter).length ≠ 0 := by omega
      refine ⟨{ hidden := true, textContent := el.textContent }, ?_, ?_⟩
      · simp [updateEmptyState, hlen, hvlen, hvlen']
      · simp [ht, hv]

/-- Witness for C10: one completed task under the filter `active`. -/
theorem updateEmptyState_spec_witness :
    ∃ el', updateEmptyState (some { hidden := true, textContent := "" })
        [{ id := "1", text := "a", completed := true }] "active"
        (getVisibleTasks [{ id := "1", text := "a", completed := true }] "active") = some el' ∧
      el'.hidden = false ∧ el'.textContent = "All tasks are done. Great job!" := by
  obtain ⟨el', h, hiff, _, h3, _⟩ := updateEmptyState_spec { hidden := true, textContent := "" }
    [{ id := "1", text := "a", completed := true }] "active"
  have hh : el'.hidden = false := hiff.mpr (Or.inr (by decide))
  exact ⟨el', h, hh, h3 hh (by decide) rfl⟩


theorem editTask_cancel (tasks : List Task) (id : String) : editTask tasks id none = tasks := by
  unfold editTask
  split <;> rfl

theorem editTask_of_blank (tasks : List Task) (id newText : String) (h : jsTrim newText = "") :
    editTask tasks id (some newText) = tasks := by
  unfold editTask
  split
  · rfl
  · simp [h]

/-- What `toggleTask`, `editTask` and `deleteTask` have in common: every task afterwards has the
id of a task before and a text that is the old one or non-empty, and the ids afterwards are a
sublist of the ids before. -/
theorem applyOp_refines (tasks : List Task) (op : Op) (hop : ∀ text now, op ≠ Op.add text now) :
    (∀ x ∈ applyOp tasks op, ∃ t ∈ tasks, x.id = t.id ∧ (x.text = t.text ∨ x.text ≠ "")) ∧
    List.Sublist ((applyOp tasks op).map Task.id) (tasks.map Task.id) := by
  cases op with
  | add text now => exact absurd rfl (hop text now)
  | toggle id completed =>
    simp only [applyOp]
    rw [toggleTask_eq_assignFirst]
    constructor
    · intro x hx
      rcases mem_assignFirst _ _ _ _ hx with h | ⟨t, ht, rfl⟩
      · exact ⟨x, h, rfl, Or.inl rfl⟩
      · exact ⟨t, ht, rfl, Or.inl rfl⟩
    · rw [map_assignFirst _ _ _ (fun _ => by rfl)]
  | edit id updated =>
    simp only [applyOp]
    cases updated with
    | none =>
      rw [editTask_cancel]
      exact ⟨fun x hx => ⟨x, hx, rfl, Or.inl rfl⟩, List.Sublist.refl _⟩
    | some newText =>
      by_cases h : jsTrim newText = ""
      · rw [editTask_of_blank _ _ _ h]
        exact ⟨fun x hx => ⟨x, hx, rfl, Or.inl rfl⟩, List.Sublist.refl _⟩
      · rw [editTask_eq_assignFirst _ _ _ h]
        constructor
        · intro x hx
          rcases mem_assignFirst _ _ _ _ hx with hx | ⟨t, ht, rfl⟩
          · exact ⟨x, hx, rfl, Or.inl rfl⟩
          · exact ⟨t, ht, rfl, Or.inr h⟩
        · rw [map_assignFirst _ _ _ (fun _ => by rfl)]
  | delete id =>
    simp only [applyOp, deleteTask]
    constructor
    · intro x hx
      exact ⟨x, List.mem_of_mem_filter hx, rfl, Or.inl rfl⟩
    · exact List.Sublist.map _ (List.filter_sublist _)

/-- The invariant of C1 carried along a sequence of operations from any collection that has it:
`used` lists the clock readings that the ids present come from. -/
theorem foldl_applyOp_invariant (ops : List Op) : ∀ (tasks : List Task) (used : List Int),
    (∀ t ∈ tasks, t.id ≠ "" ∧ t.text ≠ "") →
    (∀ t ∈ tasks, ∃ n ∈ used, t.id = toString n) →
    (tasks.map Task.id).Nodup →
    (∀ text ∈ addedTexts ops, text ≠ "") →
    (clockReadings ops).Nodup →
    (∀ n ∈ clockReadings ops, n ∉ used) →
    (∀ t ∈ ops.foldl applyOp tasks, t.id ≠ "" ∧ t.text ≠ "") ∧
      ((ops.foldl applyOp tasks).map Task.id).Nodup := by
  induction ops with
  | nil =>
    intro tasks used h1 _ h3 _ _ _
    exact ⟨h1, h3⟩
  | cons op ops ih =>
    intro tasks used h1 h2 h3 hText hClock hFresh
    rw [List.foldl_cons]
    by_cases hop : ∃ text now, op = Op.add text now
    · obtain ⟨text, now, rfl⟩ := hop
      simp only [addedTexts, clockReadings, List.mem_cons, forall_eq_or_imp,
        List.nodup_cons] at hText hClock hFresh
      have hnew : ∀ t ∈ tasks, t.id ≠ toString now := by
        intro t ht heq
        obtain ⟨n, hn, hid⟩ := h2 t ht
        have : n = now := toString_int_injective (hid.symm.trans heq)
        exact hFresh.1 (this ▸ hn)
      apply ih (applyOp tasks (Op.add text now)) (now :: used)
      · intro t ht
        simp only [applyOp, addTask, List.mem_append, List.mem_singleton] at ht
        rcases ht with ht | rfl
        · exact h1 t ht
        · exact ⟨toString_int_ne_empty now, hText.1⟩
      · intro t ht
        simp only [applyOp, addTask, List.mem_append, List.mem_singleton] at ht
        rcases ht with ht | rfl
        · obtain ⟨n, hn, hid⟩ := h2 t ht
          exact ⟨n, List.mem_cons_of_mem _ hn, hid⟩
        · exact ⟨now, List.mem_cons_self _ _, rfl⟩
      · simp only [applyOp, addTask, List.map_append, List.map_cons, List.map_nil]
        rw [List.nodup_append]
        refine ⟨h3, List.nodup_singleton _, ?_⟩
        intro a ha hb
        rw [List.mem_singleton] at hb
        obtain ⟨t, ht, rfl⟩ := List.mem_map.mp ha
        exact hnew t ht hb
      · exact hText.2
      · exact hClock.2
      · intro n hn hmem
        rcases List.mem_cons.mp hmem with rfl | hmem
        · exact hClock.1 hn
        · exact hFresh.2 n hn hmem
    · have hop' : ∀ text now, op ≠ Op.add text now := fun text now h => hop ⟨text, now, h⟩
      obtain ⟨hr1, hr2⟩ := applyOp_refines tasks op hop'
      have hT : addedTexts (op :: ops) = addedTexts ops := by
        cases op with
        | add text now => exact absurd rfl (hop' text now)
        | _ => rfl
      have hC : clockReadings (op :: ops) = clockReadings ops := by
        cases op with
        | add text now => exact absurd rfl (hop' text now)
        | _ => rfl
      rw [hT] at hText
      rw [hC] at hClock hFresh
      apply ih (applyOp tasks op) used
      · intro x hx
        obtain ⟨t, ht, hid, htext⟩ := hr1 x hx
        refine ⟨hid ▸ (h1 t ht).1, ?_⟩
        rcases htext with h | h
        · exact h ▸ (h1 t ht).2
        · exact h
      · intro x hx
        obtain ⟨t, ht, hid, _⟩ := hr1 x hx
        obtain ⟨n, hn, hn2⟩ := h2 t ht
        exact ⟨n, hn, hid.trans hn2⟩
      · exact List.Nodup.sublist hr2 h3
      · exact hText
      · exact hClock
      · exact hFresh

/-- C1 (counterexample): two adds that read the same clock value give two tasks with the same
id, and an add with the empty text gives a task with the empty text. -/
theorem run_breaks_invariant :
    run [Op.add "a" 1, Op.add "b" 1]
      = [{ id := "1", text := "a", completed := false },
         { id := "1", text := "b", completed := false }] ∧
    ¬ ((run [Op.add "a" 1, Op.add "b" 1]).map Task.id).Nodup ∧
    run [Op.add "" 1] = [{ id := "1", text := "", completed := false }] ∧
    ¬ (∀ t ∈ run [Op.add "" 1], t.id ≠ "" ∧ t.text ≠ "") := by
  decide

/-- C1 (amended): starting from the empty collection, after every finite sequence of add, toggle,
edit and delete operations in which every add is given a non-empty text and no two adds
read the same clock value, every task has a non-empty id and a non-empty text and no two tasks
have the same id. -/
theorem run_invariant (ops : List Op)
    (hText : ∀ text ∈ addedTexts ops, text ≠ "")
    (hClock : (clockReadings ops).Nodup) :
    (∀ t ∈ run ops, t.id ≠ "" ∧ t.text ≠ "") ∧ ((run ops).map Task.id).Nodup :=
  foldl_applyOp_invariant ops [] [] (by simp) (by simp) (by simp) hText hClock (by simp)

/-- Witness for C1: six operations with the clock readings 1, 2 and 3. -/
theorem run_invariant_witness :
    (∀ text ∈ addedTexts [Op.add "a" 1, Op.add "b" 2, Op.toggle "1" true,
        Op.edit "2" (some " c "), Op.delete "1", Op.add "d" 3], text ≠ "") ∧
    (clockReadings [Op.add "a" 1, Op.add "b" 2, Op.toggle "1" true,
        Op.edit "2" (some " c "), Op.delete "1", Op.add "d" 3]).Nodup ∧
    run [Op.add "a" 1, Op.add "b" 2, Op.toggle "1" true,
        Op.edit "2" (some " c "), Op.delete "1", Op.add "d" 3]
      = [{ id := "2", text := "c", completed := false },
         { id := "3", text := "d", completed := false }] ∧
    ((run [Op.add "a" 1, Op.add "b" 2, Op.toggle "1" true,
        Op.edit "2" (some " c "), Op.delete "1", Op.add "d" 3]).map Task.id).Nodup :=
  ⟨by decide, by decide, by decide, (run_invariant _ (by decide) (by decide)).2⟩


theorem sanitize_taskValue (env : JSEnv Num) (task : Task) :
    sanitize env (taskValue task) = some task := by
  cases task with
  | mk id text completed =>
    simp [sanitize, taskValue, idOrEmpty, member, lookup, toStr, toBoolean]

theorem mapSanitize_taskValue (env : JSEnv Num) (tasks : List Task) :
    mapSanitize env (tasks.map taskValue) = some tasks := by
  induction tasks with
  | nil => rfl
  | cons t ts ih => simp [mapSanitize, sanitize_taskValue, ih]

theorem sanitize_eq_sanitizedRecord (env : JSEnv Num) (item : JSValue Num)
    (h1 : item ≠ .null) (h2 : toStr env (idOrEmpty item) ≠ none) :
    sanitize env item = some (sanitizedRecord env item) := by
  obtain ⟨id, hid⟩ := Option.ne_none_iff_exists'.mp h2
  have hs : sanitize env item = some
      { id := id
        text := match member item "text" with
          | some (.str s) => s
          | _ => ""
        completed := toBoolean env (member item "completed") } := by
    cases item <;> first | exact absurd rfl h1 | simp [sanitize, hid]
  rw [hs]
  have hrec : (match member item "id" with
      | none => ""
      | some .null => ""
      | some v => (toStr env v).getD "") = id := by
    unfold idOrEmpty at hid
    cases hm : member item "id" with
    | none =>
      rw [hm] at hid
      simpa [toStr] using hid
    | some v =>
      rw [hm] at hid
      cases v with
      | null => simpa [toStr] using hid
      | bool b => simp only [] at hid ⊢; rw [hid]; rfl
      | num n => simp only [] at hid ⊢; rw [hid]; rfl
      | str s => simp only [] at hid ⊢; rw [hid]; rfl
      | arr items => simp only [] at hid ⊢; rw [hid]; rfl
      | obj members => simp only [] at hid ⊢; rw [hid]; rfl
  unfold sanitizedRecord
  rw [hrec]

theorem mapSanitize_eq_map (env : JSEnv Num) (items : List (JSValue Num))
    (h : ∀ item ∈ items, item ≠ .null ∧ toStr env (idOrEmpty item) ≠ none) :
    mapSanitize env items = some (items.map (sanitizedRecord env)) := by
  induction items with
  | nil => rfl
  | cons item rest ih =>
    have h0 := h item (List.mem_cons_self _ _)
    simp [mapSanitize, sanitize_eq_sanitizedRecord env item h0.1 h0.2,
      ih (fun i hi => h i (List.mem_cons_of_mem _ hi))]

theorem sanitize_eq_none (env : JSEnv Num) (item : JSValue Num)
    (h : item = .null ∨ toStr env (idOrEmpty item) = none) : sanitize env item = none := by
  rcases h with rfl | h
  · rfl
  · cases item <;> simp [sanitize, h]

theorem mapSanitize_eq_none (env : JSEnv Num) (items : List (JSValue Num))
    (h : ∃ item ∈ items, item = .null ∨ toStr env (idOrEmpty item) = none) :
    mapSanitize env items = none := by
  induction items with
  | nil => simp at h
  | cons item rest ih =>
    obtain ⟨x, hx, hbad⟩ := h
    unfold mapSanitize
    rcases List.mem_cons.mp hx with rfl | hx
    · rw [sanitize_eq_none env x hbad]
    · cases sanitize env item with
      | none => rfl
      | some t => simp [ih ⟨x, hx, hbad⟩]

theorem loadTasks_nonempty (env : JSEnv Num) (storage : Storage) :
    ∀ t ∈ loadTasks env storage, t.id ≠ "" ∧ t.text ≠ "" := by
  intro t ht
  unfold loadTasks at ht
  split at ht
  · simp at ht
  · simp at ht
  · split at ht
    · simp at ht
    · split at ht
      · simp at ht
      · split at ht
        · simp at ht
        · simpa using (List.mem_filter.mp ht).2
      · simp at ht


theorem taskValue_coercible (env : JSEnv Num) (task : Task) :
    (taskValue task : JSValue Num) ≠ .null ∧ toStr env (idOrEmpty (taskValue task)) ≠ none := by
  cases task with
  | mk id text completed => simp [taskValue, idOrEmpty, member, lookup, toStr]

theorem toStr_of_raisesRangeError (env : JSEnv Num) (v : JSValue Num)
    (hv : isScalar v = false) (h : env.raisesRangeError v = true) : toStr env v = none := by
  cases v <;> simp [toStr, isScalar, h] at hv ⊢

theorem toStr_of_own_toString (env : JSEnv Num) (members : List (String × JSValue Num))
    (h : (lookup "toString" members).isSome = true) : toStr env (.obj members) = none := by
  simp [toStr, h]

theorem toStr_of_isScalar (env : JSEnv Num) (v : JSValue Num) (h : isScalar v = true) :
    toStr env v ≠ none := by
  cases v <;> simp [toStr, isScalar] at h ⊢

/-- C4: for every collection, `saveTasks` followed by `loadTasks` yields, in the same order,
exactly the tasks whose id and text are both non-empty, each unchanged; stated for a storage
that performs the write and the read, and a host whose `JSON.stringify` gives a non-empty text
that `JSON.parse` turns back into the value that was written. -/
theorem loadTasks_saveTasks (env : JSEnv Num) (storage : Storage) (tasks : List Task)
    (hWrite : storage.accepts (env.stringify (tasksValue tasks)) = true)
    (hRead : storage.readable = true)
    (hText : env.stringify (tasksValue tasks) ≠ "")
    (hJSON : env.parse (env.stringify (tasksValue tasks)) = some (tasksValue tasks)) :
    loadTasks env (saveTasks env storage tasks)
      = tasks.filter (fun task => task.id != "" && task.text != "") := by
  have hs : saveTasks env storage tasks
      = { storage with item := some (env.stringify (tasksValue tasks)) } := by
    simp [saveTasks, hWrite]
  rw [hs]
  simp only [loadTasks, Storage.getItem, hRead, hText, if_true, if_false, hJSON]
  simp only [tasksValue, mapSanitize_taskValue]

set_option maxRecDepth 8192 in
/-- Witness for C4: `demoTasks` saved and loaded again; the two tasks with an empty id or text
are dropped. -/
theorem loadTasks_saveTasks_witness :
    loadTasks demoEnv
        (saveTasks demoEnv { item := none, readable := true, accepts := fun _ => true } demoTasks)
      = [{ id := "1", text := "a", completed := true },
         { id := "4", text := "d", completed := false }] :=
  (loadTasks_saveTasks demoEnv { item := none, readable := true, accepts := fun _ => true }
    demoTasks rfl rfl (by decide) rfl).trans (by decide)

set_option maxRecDepth 8192 in
/-- C5 (counterexample): the stored array holds two records; the first sanitizes to a task with
non-empty id and text, the id of the second is an object with a member `toString`, whose
coercion to a string raises. `loadTasks` returns the empty collection, not the first record. -/
theorem loadTasks_not_record_by_record :
    demoEnv.parse corruptText = some corruptValue ∧
    corruptValue = .arr [.obj [("id", .str "1"), ("text", .str "a")],
      .obj [("id", .obj [("toString", .num 1)]), ("text", .str "b")]] ∧
    sanitizedRecord demoEnv (.obj [("id", .str "1"), ("text", .str "a")])
      = { id := "1", text := "a", completed := false } ∧
    keeps { id := "1", text := "a", completed := false } = true ∧
    loadTasks demoEnv { item := some corruptText, readable := true, accepts := fun _ => true }
      = [] := by
  refine ⟨rfl, rfl, by decide, by decide, by decide⟩

/-- C5 (amended): `loadTasks` is total and returns the empty collection when the item cannot be
read, is absent or empty, is not parseable JSON, or is not an array, and also when an element of
the array is `null` or the coercion of an id to a string raises (then the whole load is
dropped). For an array without such an element it returns, in stored order, the
record-by-record sanitized tasks (id coerced to a string, empty when absent or `null`; text kept
when it is a string, else empty; completed coerced to a boolean) without those whose sanitized id
or text is empty. The coercion never raises on an id that is a string, number or boolean; it
raises on an array or object on which the engine runs out of stack (an array nested too deeply),
and on an object with an own member `toString`.
Every loaded task has a non-empty id and a non-empty text. -/
theorem loadTasks_spec (env : JSEnv Num) (storage : Storage) :
    ((storage.readable = false ∨ storage.item = none ∨ storage.item = some "") →
      loadTasks env storage = []) ∧
    (∀ stored, storage.readable = true → storage.item = some stored →
      (env.parse stored = none ∨ ∃ v, env.parse stored = some v ∧ ∀ items, v ≠ .arr items) →
      loadTasks env storage = []) ∧
    (∀ stored items, storage.readable = true → storage.item = some stored → stored ≠ "" →
      env.parse stored = some (.arr items) →
      (∃ item ∈ items, item = .null ∨ toStr env (idOrEmpty item) = none) →
      loadTasks env storage = []) ∧
    (∀ stored items, storage.readable = true → storage.item = some stored → stored ≠ "" →
      env.parse stored = some (.arr items) →
      (∀ item ∈ items, item ≠ .null ∧ toStr env (idOrEmpty item) ≠ none) →
      loadTasks env storage = (items.map (sanitizedRecord env)).filter keeps) ∧
    (∀ v : JSValue Num, isScalar v = true → toStr env v ≠ none) ∧
    (∀ v : JSValue Num, isScalar v = false → env.raisesRangeError v = true →
      toStr env v = none) ∧
    (∀ members : List (String × JSValue Num), (lookup "toString" members).isSome = true →
      toStr env (.obj members) = none) ∧
    (∀ t ∈ loadTasks env storage, t.id ≠ "" ∧ t.text ≠ "") := by
  refine ⟨?_, ?_, ?_, ?_, toStr_of_isScalar env, toStr_of_raisesRangeError env,
    toStr_of_own_toString env, loadTasks_nonempty env storage⟩
  · rintro (h | h | h)
    · simp [loadTasks, Storage.getItem, h]
    · cases hr : storage.readable <;> simp [loadTasks, Storage.getItem, h, hr]
    · cases hr : storage.readable <;> simp [loadTasks, Storage.getItem, h, hr]
  · intro stored hr hi hp
    by_cases he : stored = ""
    · simp [loadTasks, Storage.getItem, hr, hi, he]
    · rcases hp with hp | ⟨v, hp, hv⟩
      · simp [loadTasks, Storage.getItem, hr, hi, he, hp]
      · cases v with
        | arr items => exact absurd rfl (hv items)
        | _ => simp [loadTasks, Storage.getItem, hr, hi, he, hp]
  · intro stored items hr hi he hp hbad
    simp [loadTasks, Storage.getItem, hr, hi, he, hp, mapSanitize_eq_none env items hbad]
  · intro stored items hr hi he hp hok
    simp only [loadTasks, Storage.getItem, hr, hi, he, hp, mapSanitize_eq_map env items hok,
      if_true, if_false]
    rfl

set_option maxRecDepth 8192 in
/-- Witness for C5: loading the JSON text of `demoTasks`; and loading, on a host whose stack
holds two levels, an array whose second record has an id nested three deep. -/
theorem loadTasks_spec_witness :
    loadTasks demoEnv { item := some demoText, readable := true, accepts := fun _ => true }
      = [{ id := "1", text := "a", completed := true },
         { id := "4", text := "d", completed := false }] ∧
    loadTasks shallowEnv { item := some deepText, readable := true, accepts := fun _ => true }
      = [] :=
  ⟨((loadTasks_spec demoEnv
      { item := some demoText, readable := true, accepts := fun _ => true }).2.2.2.1
    demoText (demoTasks.map taskValue) rfl rfl (by decide) rfl
    (fun item h => by
      obtain ⟨t, _, rfl⟩ := List.mem_map.mp h
      exact taskValue_coercible demoEnv t)).trans (by decide),
   (loadTasks_spec shallowEnv
      { item := some deepText, readable := true, accepts := fun _ => true }).2.2.1
    deepText
    [.obj [("id", .str "1"), ("text", .str "a")],
     .obj [("id", .arr [.arr [.arr [.num 7]]]), ("text", .str "b")]]
    rfl rfl (by decide) rfl
    ⟨.obj [("id", .arr [.arr [.arr [.num 7]]]), ("text", .str "b")],
      List.mem_cons_of_mem _ (List.mem_singleton.mpr rfl), Or.inr (by decide)⟩⟩

end SimpleTodo
